import Mathlib

/-!
Shallow embedding of the core of the `republic-go` darknode: the order
matching engine (`ome` package), the darknode `Router`, and the gRPC
`StreamService` / `safeStream`. Go byte slices are modelled as `List Nat`,
Go `time.Time` as nanoseconds since the zero time (`Nat`), Go maps as
association lists, and channels as explicit message queues. Each critical
section guarded by a mutex in the source is modelled as one atomic step.
-/

/-- Model of Go's builtin `copy(dst, src)` on byte slices: the first
`min (length dst) (length src)` bytes of `dst` are overwritten by the
corresponding bytes of `src`; the rest of `dst` is unchanged. -/
def goCopy (dst src : List Nat) : List Nat :=
  src.take dst.length ++ dst.drop (min dst.length src.length)

/-- Model of Go's `bytes.Compare`: lexicographic comparison of byte slices,
returning -1, 0 or 1. -/
def bytesCompare : List Nat → List Nat → Int
  | [], [] => 0
  | [], _ :: _ => -1
  | _ :: _, [] => 1
  | a :: as, b :: bs => if a < b then -1 else if b < a then 1 else bytesCompare as bs

namespace crypto

/-- Modelled from the spec: the package `crypto` of this repository is not
under `src/`. Its `Keccak256(data ...[]byte)` helper feeds every argument,
in order, into a Keccak-256 sponge and returns the 32-byte digest; i.e. it
hashes the concatenation of its arguments. The Keccak-256 permutation
itself is an external cryptographic primitive (out of scope per the spec),
so it is carried as a function constrained to produce 32-byte digests. -/
structure KeccakHash where
  hash : List Nat → List Nat
  hash_len : ∀ d, (hash d).length = 32

/-- Modelled from the spec: `crypto.Keccak256` hashes the concatenation of
its (variadic) byte-slice arguments. -/
def Keccak256 (k : KeccakHash) (datas : List (List Nat)) : List Nat :=
  k.hash datas.flatten

/-- A trivial 32-byte-digest hash, used only to instantiate concrete
examples of the abstract digest function. -/
def zeroHash : KeccakHash :=
  { hash := fun _ => List.replicate 32 0
    hash_len := fun _ => List.length_replicate 32 0 }

end crypto

namespace ome

/-- `order.ID` is an opaque 32-byte identifier (modelled as a byte list). -/
abbrev OrderID := List Nat

/-- `ComputationID` is `[32]byte` (modelled as a byte list). -/
abbrev ComputationID := List Nat

/-- The 32-byte epoch hash `ξ` (`cal.Epoch.Hash`). -/
abbrev EpochHash := List Nat

/-- `type ComputationState int`. -/
abbrev ComputationState := Nat

/-- `ComputationStateNil = iota` (= 0). -/
def ComputationStateNil : ComputationState := 0

/-- `ComputationStateMatched` (= 1). -/
def ComputationStateMatched : ComputationState := 1

/-- `ComputationStateMismatched` (= 2). -/
def ComputationStateMismatched : ComputationState := 2

/-- `ComputationStateAccepted` (= 3). -/
def ComputationStateAccepted : ComputationState := 3

/-- `ComputationStateRejected` (= 4). -/
def ComputationStateRejected : ComputationState := 4

/-- `ComputationStateSettled` (= 5). -/
def ComputationStateSettled : ComputationState := 5

/-- Go `time.Minute` in nanoseconds. -/
def timeMinute : Nat := 60 * 1000000000

/-- `const ComputationBacklogExpiry = 5 * time.Minute`. -/
def ComputationBacklogExpiry : Nat := 5 * timeMinute

/-- The `Computation` struct of the `ome` package. `Timestamp` is modelled
as nanoseconds since Go's zero time, so the zero `time.Time` is `0`. -/
structure Computation where
  ID : ComputationID
  State : ComputationState
  Priority : Nat
  Match : Bool
  Timestamp : Nat
  Buy : OrderID
  Sell : OrderID
deriving DecidableEq, Repr

/-- `NewComputation(buy, sell)`: builds `Computation{Buy: buy, Sell: sell}`
(every other field at its Go zero value; the zero value of `ID` is 32 zero
bytes) and then runs `copy(com.ID[:], crypto.Keccak256(buy[:], sell[:]))`. -/
def NewComputation (k : crypto.KeccakHash) (buy sell : OrderID) : Computation :=
  let com : Computation :=
    { ID := List.replicate 32 0
      State := ComputationStateNil
      Priority := 0
      Match := false
      Timestamp := 0
      Buy := buy
      Sell := sell }
  { com with ID := goCopy com.ID (crypto.Keccak256 k [buy, sell]) }

/-- The `map[ComputationID]Computation` backlog, as an association list
whose keys are unique (Go maps hold at most one entry per key). -/
abbrev Backlog := List (ComputationID × Computation)

/-- Go map read `m[k]` (presence variant): the entry at key `k`, if any. -/
def mapLookup (m : Backlog) (k : ComputationID) : Option Computation :=
  match m with
  | [] => none
  | (k', v) :: rest => if k' = k then some v else mapLookup rest k

/-- Go map write `m[k] = v`: replaces the entry at key `k` or adds one. -/
def mapInsert (m : Backlog) (k : ComputationID) (v : Computation) : Backlog :=
  match m with
  | [] => [(k, v)]
  | (k', v') :: rest => if k' = k then (k', v) :: rest else (k', v') :: mapInsert rest k v

/-- The sweep's expiry test `com.Timestamp.Add(ComputationBacklogExpiry).Before(now)`
(strict `<`). -/
def expiredAt (now : Nat) (com : Computation) : Bool :=
  decide (com.Timestamp + ComputationBacklogExpiry < now)

/-- The first loop of `syncOrderFragmentBacklog`: ranging over the backlog
(in Go-map iteration order `entries`), every visited entry is deleted from
the map; expired entries are dropped, others are appended to the retry
buffer; the loop breaks as soon as the buffer holds 128 entries. `n` is
the number of entries already in the buffer. Returns the buffer built from
this point on, paired with the entries left unvisited by the break. -/
def backlogBuffer (now : Nat) : List Computation → Nat → List Computation × List Computation
  | [], _ => ([], [])
  | com :: rest, n =>
    if expiredAt now com then backlogBuffer now rest n
    else if n + 1 ≥ 128 then ([com], rest)
    else
      let br := backlogBuffer now rest (n + 1)
      (com :: br.1, br.2)

/-- `syncOrderFragmentBacklog`: the backlog after one sweep. `entries` is
the backlog's contents in Go-map iteration order; `retryFails com` models
`sendComputationToMatcher` returning an error for `com` (the Storer is
external, per the spec). Visited entries are deleted as they are copied,
so the map after the first loop holds exactly the unvisited entries; the
second loop retries each buffered Computation and reinserts it (keyed by
its ID) exactly when the retry fails. -/
def syncOrderFragmentBacklog (entries : List Computation) (now : Nat)
    (retryFails : Computation → Bool) : Backlog :=
  let br := backlogBuffer now entries 0
  let afterDeletes : Backlog := br.2.map (fun com => (com.ID, com))
  br.1.foldl (fun m com => if retryFails com then mapInsert m com.ID com else m) afterDeletes

/-- The observable effects of one `syncRanker` pass. -/
structure RankerPass where
  matcherCalls : List Computation
  backlogInserts : List (ComputationID × Computation)
  matchesCh : List Computation
  settles : List (EpochHash × Computation)
  errorLogs : List Computation
  wait : Bool
deriving DecidableEq, Repr

/-- The empty accumulator for a `syncRanker` pass. -/
def emptyRankerPass : RankerPass :=
  { matcherCalls := []
    backlogInserts := []
    matchesCh := []
    settles := []
    errorLogs := []
    wait := false }

/-- The `switch buffer[i].State` body of `syncRanker`: `Nil` goes to
`sendComputationToMatcher` and, on error, is inserted into the backlog
keyed by its ID; `Matched` goes to the matches channel
(`sendComputationToConfirmer`); `Accepted` goes to the Settler under the
current epoch hash; any other state is logged as an error and dropped. -/
def dispatchComputation (xi : EpochHash) (matcherErr : Computation → Bool)
    (acc : RankerPass) (com : Computation) : RankerPass :=
  if com.State = ComputationStateNil then
    if matcherErr com then
      { acc with
        matcherCalls := acc.matcherCalls ++ [com]
        backlogInserts := acc.backlogInserts ++ [(com.ID, com)] }
    else
      { acc with matcherCalls := acc.matcherCalls ++ [com] }
  else if com.State = ComputationStateMatched then
    { acc with matchesCh := acc.matchesCh ++ [com] }
  else if com.State = ComputationStateAccepted then
    { acc with settles := acc.settles ++ [(xi, com)] }
  else
    { acc with errorLogs := acc.errorLogs ++ [com] }

/-- `syncRanker`: fills a 128-slot buffer from `ranker.Computations`
(modelled as a function of the buffer capacity; the `[128]Computation`
buffer truncates anything beyond 128), dispatches each returned
Computation by state, and returns `n != 128` as the wait flag. -/
def syncRanker (xi : EpochHash) (rankerComputations : Nat → List Computation)
    (matcherErr : Computation → Bool) : RankerPass :=
  let coms := (rankerComputations 128).take 128
  let pass := coms.foldl (dispatchComputation xi matcherErr) emptyRankerPass
  { pass with wait := decide (coms.length ≠ 128) }

/-- A non-expired backlog entry (for the C5 analysis): inserted at
`ComputationBacklogExpiry + 1`, so it is fresh when swept at that time. -/
def freshComC5 (i : Nat) : Computation :=
  { ID := (i + 1) :: List.replicate 31 0
    State := ComputationStateNil
    Priority := 0
    Match := false
    Timestamp := ComputationBacklogExpiry + 1
    Buy := List.replicate 32 0
    Sell := List.replicate 32 0 }

/-- An expired backlog entry (for the C5 analysis): inserted at the zero
time, hence expired at any sweep later than `ComputationBacklogExpiry`. -/
def expiredComC5 : Computation :=
  { ID := 200 :: List.replicate 31 0
    State := ComputationStateNil
    Priority := 0
    Match := false
    Timestamp := 0
    Buy := List.replicate 32 0
    Sell := List.replicate 32 0 }

/-- A backlog (in iteration order) holding 128 fresh entries followed by
one expired entry. -/
def entriesC5 : List Computation :=
  ((List.range 128).map freshComC5) ++ [expiredComC5]

/-- The sweep instant for the C5 analysis. -/
def nowC5 : Nat := ComputationBacklogExpiry + 1

end ome

namespace darknode

/-- The raw 20-byte public-key hash of an `identity.Address`
(`addr.ID()` bytes), which the Router compares with `bytes.Compare`. -/
abbrev Address := List Nat

/-- Modelled from the spec: `identity.MultiAddress` (package `identity`,
not under `src/`) is a network location together with an Address. -/
structure MultiAddress where
  NetworkLocation : String
  Addr : Address
deriving DecidableEq, Repr

/-- Modelled from the spec: the `rpc.Computation` wire message (package
`rpc`, not under `src/`). Only its MultiAddress greeting field matters
here; a non-greeting message leaves it unset. -/
structure RPCComputation where
  MultiAddress : Option MultiAddress
deriving DecidableEq, Repr

/-- Which side of the compute arc this node takes. -/
inductive ComputeRole where
  | client
  | server
deriving DecidableEq, Repr

/-- The observable outcome of `setupCompute`: the role taken (client =
dial via the client pool, server = wait via `smpcer.WaitForCompute`) and
the greeting messages the setup itself puts on the new stream's sender
channel. -/
structure SetupComputeResult where
  role : ComputeRole
  senderMessages : List RPCComputation
deriving DecidableEq, Repr

/-- `Router.setupCompute(addr)`: if `bytes.Compare(router.address.ID(),
addr.ID()) < 0` the Router dials through the client pool and sends its own
MultiAddress as the first message on the fresh sender channel; otherwise
it waits for the incoming compute stream and sends nothing. -/
def setupCompute (routerAddress : Address) (routerMultiAddress : MultiAddress)
    (addr : Address) : SetupComputeResult :=
  if bytesCompare routerAddress addr < 0 then
    { role := ComputeRole.client
      senderMessages := [{ MultiAddress := some routerMultiAddress }] }
  else
    { role := ComputeRole.server
      senderMessages := [] }

/-- Go map read on `map[identity.Address]int` (missing key reads 0). -/
def intMapGet (m : List (Address × Int)) (k : Address) : Int :=
  match m with
  | [] => 0
  | (k', v) :: rest => if k' = k then v else intMapGet rest k

/-- Go map write on `map[identity.Address]int`. -/
def intMapSet (m : List (Address × Int)) (k : Address) (v : Int) : List (Address × Int) :=
  match m with
  | [] => [(k, v)]
  | (k', v') :: rest => if k' = k then (k', v) :: rest else (k', v') :: intMapSet rest k v

/-- The Router's per-peer arc state. The channel and splitter values held
by `computeSenders`, `computeReceivers` and `computeErrs` are opaque, so
the three maps are modelled by their key sets; `computeArcs` is the
reference-count map. `closedSenders` records, in order, every outbound
sender channel closed by `teardownCompute`. -/
structure RouterState where
  computeSenders : List Address
  computeReceivers : List Address
  computeErrs : List Address
  computeArcs : List (Address × Int)
  closedSenders : List Address
deriving DecidableEq, Repr

/-- `NewRouter` starts with all four arc maps empty. -/
def initRouterState : RouterState :=
  { computeSenders := []
    computeReceivers := []
    computeErrs := []
    computeArcs := []
    closedSenders := [] }

/-- The map mutations of `setupCompute`: the sender channel, receiver
splitter and error splitter are stored under `addr`. -/
def setupComputeState (s : RouterState) (addr : Address) : RouterState :=
  { s with
    computeSenders := s.computeSenders ++ [addr]
    computeReceivers := s.computeReceivers ++ [addr]
    computeErrs := s.computeErrs ++ [addr] }

/-- The acquire critical section of `Router.Compute` (run under
`router.mu`, before the caller subscribes): if no arc to `addr` exists
(checked via `computeReceivers`), set one up; then `computeArcs[addr]++`. -/
def acquireArc (s : RouterState) (addr : Address) : RouterState :=
  let s1 := if addr ∈ s.computeReceivers then s else setupComputeState s addr
  { s1 with computeArcs := intMapSet s1.computeArcs addr (intMapGet s1.computeArcs addr + 1) }

/-- `Router.teardownCompute(addr)`: close the outbound sender channel and
delete the arc's entries from the three arc maps (the `computeArcs`
counter entry itself is left at 0). -/
def teardownComputeState (s : RouterState) (addr : Address) : RouterState :=
  { s with
    closedSenders := s.closedSenders ++ [addr]
    computeSenders := s.computeSenders.filter (fun a => decide (a ≠ addr))
    computeReceivers := s.computeReceivers.filter (fun a => decide (a ≠ addr))
    computeErrs := s.computeErrs.filter (fun a => decide (a ≠ addr)) }

/-- The release critical section of `Router.Compute` (the deferred block,
run under `router.mu`): `computeArcs[addr]--`, and teardown exactly when
the decremented count is 0. -/
def releaseArc (s : RouterState) (addr : Address) : RouterState :=
  let arcs1 := intMapSet s.computeArcs addr (intMapGet s.computeArcs addr - 1)
  let s1 := { s with computeArcs := arcs1 }
  if intMapGet arcs1 addr = 0 then teardownComputeState s1 addr else s1

/-- One mutex-protected critical section of `Router.Compute`. -/
inductive RouterEvent where
  | acquire (addr : Address)
  | release (addr : Address)
deriving DecidableEq, Repr

/-- Apply one critical section to the Router state. -/
def applyEvent (s : RouterState) (e : RouterEvent) : RouterState :=
  match e with
  | RouterEvent.acquire addr => acquireArc s addr
  | RouterEvent.release addr => releaseArc s addr

/-- Apply a serialized history of critical sections (the mutex serializes
them) to the Router state. -/
def applyTrace (s : RouterState) (t : List RouterEvent) : RouterState :=
  t.foldl applyEvent s

/-- Histories the program can produce: every release is the deferred
counterpart of an earlier acquire by the same `Compute` call, so at the
moment a goroutine releases, its own contribution keeps `computeArcs[addr]`
positive. -/
inductive ValidSteps : RouterState → List RouterEvent → Prop where
  | nil (s : RouterState) : ValidSteps s []
  | acquire (s : RouterState) (p : Address) (t : List RouterEvent)
      (h : ValidSteps (acquireArc s p) t) : ValidSteps s (RouterEvent.acquire p :: t)
  | release (s : RouterState) (p : Address) (t : List RouterEvent)
      (hpos : 0 < intMapGet s.computeArcs p)
      (h : ValidSteps (releaseArc s p) t) : ValidSteps s (RouterEvent.release p :: t)

/-- The Router arc invariant: each arc map holds at most one entry per
peer, the three arc maps have the same key set, and an arc to `p` is
present exactly when `computeArcs[p] > 0` (and counts never go negative). -/
def ArcInvariant (s : RouterState) : Prop :=
  s.computeSenders.Nodup ∧
  s.computeReceivers.Nodup ∧
  s.computeErrs.Nodup ∧
  (∀ p, p ∈ s.computeSenders ↔ p ∈ s.computeReceivers) ∧
  (∀ p, p ∈ s.computeErrs ↔ p ∈ s.computeReceivers) ∧
  (∀ p, 0 < intMapGet s.computeArcs p ↔ p ∈ s.computeReceivers) ∧
  (∀ p, 0 ≤ intMapGet s.computeArcs p)

/-- Teardown observably happened during a release: the outbound sender
channel for `p` was closed. -/
def releaseTearsDownArc (s : RouterState) (p : Address) : Prop :=
  (releaseArc s p).closedSenders = s.closedSenders ++ [p]

/-- `order.Fragment` is opaque to the Router's wiring. -/
abbrev OrderFragment := Nat

/-- The order-fragment wiring of the Router, as built by `NewRouter`:
`orderFragmentSplitterCh` is the queue of values sent on the channel
created by `make(chan<- order.Fragment)`, and `splitterSources` holds the
source sequences attached to `orderFragmentSplitter` via `Split` (a
`dispatch.NewSplitter` starts with none, and `NewRouter` never calls
`Split`). -/
structure RouterWiring where
  orderFragmentSplitterCh : List OrderFragment
  splitterSources : List (List OrderFragment)
deriving DecidableEq, Repr

/-- The wiring `NewRouter` builds: a fresh (empty) channel and a splitter
with no attached source. -/
def newRouterWiring : RouterWiring :=
  { orderFragmentSplitterCh := []
    splitterSources := [] }

/-- `Router.OnOpenOrder(from, orderFragment)`: sends the fragment on
`router.orderFragmentSplitterCh`. -/
def OnOpenOrder (r : RouterWiring) (f : OrderFragment) : RouterWiring :=
  { r with orderFragmentSplitterCh := r.orderFragmentSplitterCh ++ [f] }

/-- Everything the order-fragment splitter can ever deliver to its
subscribers: the messages of its attached sources. -/
def splitterDeliveries (r : RouterWiring) : List OrderFragment :=
  r.splitterSources.flatten

end darknode

namespace grpc

/-- The `StreamAuthentication` message: a signature and an address. -/
structure StreamAuthentication where
  signature : List Nat
  address : String
deriving DecidableEq, Repr

/-- The `StreamMessage` wire message: optional authentication plus data. -/
structure StreamMessage where
  authentication : Option StreamAuthentication
  data : List Nat
deriving DecidableEq, Repr

/-- The generated getter chain `message.GetStreamAddress().GetAddress()`:
empty string when the authentication block is absent. -/
def getStreamAddressField (m : StreamMessage) : String :=
  match m.authentication with
  | some auth => auth.address
  | none => ""

/-- The state of a `StreamService` relevant to address verification. -/
structure StreamService where
  addr : String
deriving DecidableEq, Repr

/-- `StreamService.verifyStreamAddress(message)`: copies the claimed
address out of the message when present and non-empty, builds the digest
input `"Republic Protocol: connect: from <addr> to <local>"` (whose
Keccak-256 digest the source computes and then discards), and returns the
claimed address with a nil error. The source carries a FIXME noting that
the signature is never verified, so no input is ever rejected. -/
def verifyStreamAddress (service : StreamService) (message : StreamMessage) :
    String × Option String :=
  let addr :=
    if getStreamAddressField message ≠ "" then getStreamAddressField message else ""
  let _data := "Republic Protocol: connect: from " ++ addr ++ " to " ++ service.addr
  (addr, none)

/-- The accept/reject decision `Connect` takes on the first message of a
freshly accepted stream: reject exactly when `verifyStreamAddress`
returns an error. -/
def connectRejects (service : StreamService) (firstMessage : StreamMessage) : Bool :=
  match (verifyStreamAddress service firstMessage).2 with
  | some _ => true
  | none => false

/-- The state of a `safeStream`'s `done` channel. -/
structure SafeStream where
  doneClosed : Bool
deriving DecidableEq, Repr

/-- A Go runtime panic relevant to `safeStream`. -/
inductive GoPanic where
  | closeOfClosedChannel
deriving DecidableEq, Repr

/-- `newSafeStream` allocates a fresh (open) `done` channel. -/
def newSafeStream : SafeStream :=
  { doneClosed := false }

/-- Go's `close(ch)`: panics when the channel is already closed. -/
def closeChan (closed : Bool) : Except GoPanic Bool :=
  if closed then Except.error GoPanic.closeOfClosedChannel else Except.ok true

/-- `safeStream.Close`: takes both mutexes (released on return), runs
`close(stream.done)` and returns a nil error — unless `done` is already
closed, in which case the `close` panics. -/
def SafeStream.Close (s : SafeStream) : Except GoPanic (SafeStream × Option String) :=
  match closeChan s.doneClosed with
  | Except.error p => Except.error p
  | Except.ok _ => Except.ok ({ s with doneClosed := true }, none)

end grpc

theorem goCopy_full (src : List Nat) (h : src.length = 32) :
    goCopy (List.replicate 32 0) src = src := by
  simp [goCopy, h]

/-- Claim C1: for every pair of 32-byte order IDs `(b, s)`, the Computation
returned by `NewComputation(b, s)` has `ID` equal to the Keccak-256 hash of
the concatenation of `b` followed by `s`, byte-exact. -/
theorem newComputation_id_is_keccak_of_concat (k : crypto.KeccakHash)
    (buy sell : ome.OrderID) (hb : buy.length = 32) (hs : sell.length = 32) :
    (ome.NewComputation k buy sell).ID = k.hash (buy ++ sell) := by
  show goCopy (List.replicate 32 0) (crypto.Keccak256 k [buy, sell]) = k.hash (buy ++ sell)
  have hjoin : crypto.Keccak256 k [buy, sell] = k.hash (buy ++ sell) := by
    simp [crypto.Keccak256]
  rw [hjoin, goCopy_full _ (k.hash_len _)]

/-- Witness for claim C1 at concrete 32-byte inputs. -/
theorem newComputation_id_is_keccak_of_concat_witness :
    (ome.NewComputation crypto.zeroHash (List.replicate 32 1) (List.replicate 32 2)).ID =
      crypto.zeroHash.hash (List.replicate 32 1 ++ List.replicate 32 2) :=
  newComputation_id_is_keccak_of_concat crypto.zeroHash _ _
    (List.length_replicate 32 1) (List.length_replicate 32 2)

/-- Claim C10: for every pair of order IDs `(b, s)`, `NewComputation(b, s)`
returns a Computation whose `Buy` is `b`, `Sell` is `s`, `State` is the zero
state `ComputationStateNil`, `Match` is `false`, `Priority` is `0`, and
`Timestamp` is the zero time. -/
theorem newComputation_starts_lifecycle (k : crypto.KeccakHash)
    (buy sell : ome.OrderID) :
    (ome.NewComputation k buy sell).Buy = buy ∧
    (ome.NewComputation k buy sell).Sell = sell ∧
    (ome.NewComputation k buy sell).State = ome.ComputationStateNil ∧
    (ome.NewComputation k buy sell).Match = false ∧
    (ome.NewComputation k buy sell).Priority = 0 ∧
    (ome.NewComputation k buy sell).Timestamp = 0 := by
  refine ⟨rfl, rfl, rfl, rfl, rfl, rfl⟩

/-- Claim C9: the first call to `Close` on a `safeStream` returns a nil
error, but `Close` is not idempotent: a second call closes the
already-closed `done` channel and panics. -/
theorem safeStream_close_not_idempotent :
    grpc.SafeStream.Close grpc.newSafeStream =
      Except.ok ({ doneClosed := true }, none) ∧
    grpc.SafeStream.Close { doneClosed := true } =
      Except.error grpc.GoPanic.closeOfClosedChannel :=
  ⟨rfl, rfl⟩

/-- Claim C4 failing input, evaluated: a first stream message with no
authentication block at all (hence an empty address and no signature) is
not rejected; `verifyStreamAddress` returns the empty address with a nil
error and `Connect` accepts the stream. -/
theorem verifyStreamAddress_accepts_unauthenticated :
    grpc.verifyStreamAddress { addr := "local" } { authentication := none, data := [] } =
      ("", none) ∧
    grpc.connectRejects { addr := "local" } { authentication := none, data := [] } = false :=
  ⟨rfl, rfl⟩

/-- Claim C7 failing input, evaluated: a fragment delivered through
`OnOpenOrder` to a freshly constructed Router is queued on the channel
made by `NewRouter`, but that channel is never attached to the
order-fragment splitter (`Split` is never called on it), so the splitter
delivers nothing to subscribers. -/
theorem onOpenOrder_fragment_never_reaches_splitter :
    (darknode.OnOpenOrder darknode.newRouterWiring 42).orderFragmentSplitterCh = [42] ∧
    darknode.splitterDeliveries (darknode.OnOpenOrder darknode.newRouterWiring 42) = [] :=
  ⟨rfl, rfl⟩

theorem bytesCompare_neg_iff : ∀ (a b : List Nat),
    bytesCompare a b < 0 ↔ List.Lex (· < ·) a b := by
  intro a
  induction a with
  | nil =>
    intro b
    cases b with
    | nil =>
      simp only [bytesCompare]
      constructor
      · intro h; omega
      · intro h; cases h
    | cons y ys =>
      simp only [bytesCompare]
      constructor
      · intro _; exact List.Lex.nil
      · intro _; omega
  | cons x xs ih =>
    intro b
    cases b with
    | nil =>
      simp only [bytesCompare]
      constructor
      · intro h; omega
      · intro h; cases h
    | cons y ys =>
      by_cases h1 : x < y
      · simp only [bytesCompare, if_pos h1]
        constructor
        · intro _; exact List.Lex.rel h1
        · intro _; omega
      · by_cases h2 : y < x
        · simp only [bytesCompare, if_neg h1, if_pos h2]
          constructor
          · intro h; omega
          · intro h
            cases h with
            | rel hr => omega
            | cons hc => omega
        · have hxy : x = y := by omega
          subst hxy
          simp only [bytesCompare, if_neg h1, if_neg h2]
          rw [ih ys]
          constructor
          · intro h; exact List.Lex.cons h
          · intro h
            cases h with
            | rel hr => omega
            | cons hc => exact hc

theorem bytesCompare_swap : ∀ (a b : List Nat),
    bytesCompare b a = -bytesCompare a b := by
  intro a
  induction a with
  | nil =>
    intro b
    cases b <;> simp [bytesCompare]
  | cons x xs ih =>
    intro b
    cases b with
    | nil => simp [bytesCompare]
    | cons y ys =>
      by_cases h1 : x < y
      · have h2 : ¬ y < x := by omega
        simp [bytesCompare, h1, h2]
      · by_cases h2 : y < x
        · simp [bytesCompare, h1, h2]
        · have hxy : x = y := by omega
          subst hxy
          simp only [bytesCompare, if_neg h1]
          exact ih ys

/-- Claim C2: for every pair of distinct peer addresses, the side whose
address is byte-lexicographically smaller takes the client role (dials via
the client pool) and sends its own MultiAddress as the first message on
the new stream's sender channel, while the side whose address is larger
takes the server role (waits for the incoming compute stream) and sends no
greeting. -/
theorem setupCompute_tiebreak (localAddress remoteAddress : darknode.Address)
    (localMulti : darknode.MultiAddress) :
    (List.Lex (· < ·) localAddress remoteAddress →
      darknode.setupCompute localAddress localMulti remoteAddress =
        { role := darknode.ComputeRole.client
          senderMessages := [{ MultiAddress := some localMulti }] }) ∧
    (List.Lex (· < ·) remoteAddress localAddress →
      darknode.setupCompute localAddress localMulti remoteAddress =
        { role := darknode.ComputeRole.server
          senderMessages := [] }) := by
  constructor
  · intro h
    have hc : bytesCompare localAddress remoteAddress < 0 :=
      (bytesCompare_neg_iff _ _).2 h
    simp [darknode.setupCompute, hc]
  · intro h
    have hc : bytesCompare remoteAddress localAddress < 0 :=
      (bytesCompare_neg_iff _ _).2 h
    have hc' : ¬ bytesCompare localAddress remoteAddress < 0 := by
      have hs := bytesCompare_swap remoteAddress localAddress
      omega
    simp [darknode.setupCompute, hc']

/-- Witness for claim C2 at the concrete distinct addresses `[0]` and
`[1]`: the smaller side dials and greets, the larger side listens
silently. -/
theorem setupCompute_tiebreak_witness :
    darknode.setupCompute [0] { NetworkLocation := "a", Addr := [0] } [1] =
      { role := darknode.ComputeRole.client
        senderMessages := [{ MultiAddress := some { NetworkLocation := "a", Addr := [0] } }] } ∧
    darknode.setupCompute [1] { NetworkLocation := "b", Addr := [1] } [0] =
      { role := darknode.ComputeRole.server
        senderMessages := [] } :=
  ⟨(setupCompute_tiebreak [0] [1] _).1 (List.Lex.rel (by decide)),
   (setupCompute_tiebreak [1] [0] _).2 (List.Lex.rel (by decide))⟩

theorem mapLookup_eq_none (m : ome.Backlog) (k : ome.ComputationID)
    (h : k ∉ m.map Prod.fst) : ome.mapLookup m k = none := by
  induction m with
  | nil => rfl
  | cons e rest ih =>
    simp only [List.map_cons, List.mem_cons] at h
    push_neg at h
    simp only [ome.mapLookup]
    rw [if_neg (fun he => h.1 he.symm)]
    exact ih h.2

theorem mapInsert_lookup_self (m : ome.Backlog) (k : ome.ComputationID)
    (v : ome.Computation) : ome.mapLookup (ome.mapInsert m k v) k = some v := by
  induction m with
  | nil => simp [ome.mapInsert, ome.mapLookup]
  | cons e rest ih =>
    by_cases h : e.1 = k
    · simp [ome.mapInsert, ome.mapLookup, h]
    · simp only [ome.mapInsert]
      rw [if_neg h]
      simp only [ome.mapLookup]
      rw [if_neg h]
      exact ih

theorem mapInsert_lookup_ne (m : ome.Backlog) (k k' : ome.ComputationID)
    (v : ome.Computation) (h : k ≠ k') :
    ome.mapLookup (ome.mapInsert m k v) k' = ome.mapLookup m k' := by
  induction m with
  | nil => simp [ome.mapInsert, ome.mapLookup, h]
  | cons e rest ih =>
    by_cases he : e.1 = k
    · simp only [ome.mapInsert]
      rw [if_pos he]
      simp only [ome.mapLookup]
      have : k ≠ k' := h
      rw [if_neg (he ▸ this), if_neg (he ▸ this)]
    · simp only [ome.mapInsert]
      rw [if_neg he]
      simp only [ome.mapLookup]
      by_cases he' : e.1 = k'
      · rw [if_pos he', if_pos he']
      · rw [if_neg he', if_neg he']
        exact ih

theorem sweepFold_lookup_of_not_mem (f : ome.Computation → Bool) :
    ∀ (buf : List ome.Computation) (m : ome.Backlog) (k : ome.ComputationID),
    k ∉ buf.map ome.Computation.ID →
    ome.mapLookup
      (buf.foldl (fun m com => if f com then ome.mapInsert m com.ID com else m) m) k =
    ome.mapLookup m k := by
  intro buf
  induction buf with
  | nil => intro m k _; rfl
  | cons c rest ih =>
    intro m k hk
    simp only [List.map_cons, List.mem_cons] at hk
    push_neg at hk
    simp only [List.foldl_cons]
    rw [ih _ _ hk.2]
    by_cases hf : f c
    · rw [if_pos hf, mapInsert_lookup_ne _ _ _ _ (fun he => hk.1 he.symm)]
    · rw [if_neg hf]

theorem sweepFold_lookup_of_mem (f : ome.Computation → Bool) :
    ∀ (buf : List ome.Computation) (m : ome.Backlog) (com : ome.Computation),
    com ∈ buf → f com = true → (buf.map ome.Computation.ID).Nodup →
    ome.mapLookup
      (buf.foldl (fun m com => if f com then ome.mapInsert m com.ID com else m) m) com.ID =
    some com := by
  intro buf
  induction buf with
  | nil => intro m com h; cases h
  | cons c rest ih =>
    intro m com hmem hf hnodup
    simp only [List.map_cons, List.nodup_cons] at hnodup
    simp only [List.foldl_cons]
    rcases List.mem_cons.1 hmem with hc | hc
    · subst hc
      rw [if_pos hf]
      rw [sweepFold_lookup_of_not_mem f rest _ _ hnodup.1]
      exact mapInsert_lookup_self _ _ _
    · exact ih _ _ hc hf hnodup.2

theorem backlogBuffer_append_sublist (now : Nat) :
    ∀ (l : List ome.Computation) (n : Nat),
    ((ome.backlogBuffer now l n).1 ++ (ome.backlogBuffer now l n).2).Sublist l := by
  intro l
  induction l with
  | nil => intro n; simp [ome.backlogBuffer]
  | cons com rest ih =>
    intro n
    by_cases hexp : ome.expiredAt now com
    · simp only [ome.backlogBuffer, if_pos hexp]
      exact (ih n).cons com
    · by_cases hfull : n + 1 ≥ 128
      · simp only [ome.backlogBuffer, if_neg hexp, if_pos hfull]
        simp
      · simp only [ome.backlogBuffer, if_neg hexp, if_neg hfull]
        simpa using (ih (n + 1)).cons₂ com

theorem backlogBuffer_expired_not_mem (now : Nat) (com : ome.Computation)
    (hexp : ome.expiredAt now com = true) :
    ∀ (pre : List ome.Computation) (post : List ome.Computation) (n : Nat),
    n + (pre.filter (fun c => !ome.expiredAt now c)).length < 128 →
    com.ID ∉ pre.map ome.Computation.ID →
    com.ID ∉ post.map ome.Computation.ID →
    com.ID ∉ (ome.backlogBuffer now (pre ++ com :: post) n).1.map ome.Computation.ID ∧
    com.ID ∉ (ome.backlogBuffer now (pre ++ com :: post) n).2.map ome.Computation.ID := by
  intro pre
  induction pre with
  | nil =>
    intro post n _ _ hpost
    simp only [List.nil_append, ome.backlogBuffer, if_pos hexp]
    have hsub := backlogBuffer_append_sublist now post n
    have hsub' := hsub.map ome.Computation.ID
    rw [List.map_append] at hsub'
    constructor
    · intro hmem
      exact hpost (hsub'.subset (List.mem_append_left _ hmem))
    · intro hmem
      exact hpost (hsub'.subset (List.mem_append_right _ hmem))
  | cons p pre' ih =>
    intro post n hroom hpre hpost
    simp only [List.map_cons, List.mem_cons] at hpre
    push_neg at hpre
    by_cases hp : ome.expiredAt now p
    · have hroom' : n + (pre'.filter (fun c => !ome.expiredAt now c)).length < 128 := by
        simpa [List.filter_cons, hp] using hroom
      simp only [List.cons_append, ome.backlogBuffer, if_pos hp]
      exact ih post n hroom' hpre.2 hpost
    · have hroom0 : n + 1 + (pre'.filter (fun c => !ome.expiredAt now c)).length < 128 := by
        have : (List.filter (fun c => !ome.expiredAt now c) (p :: pre')).length =
            (pre'.filter (fun c => !ome.expiredAt now c)).length + 1 := by
          simp [List.filter_cons, hp]
        omega
      have hfull : ¬ n + 1 ≥ 128 := by omega
      simp only [List.cons_append, ome.backlogBuffer, if_neg hp, if_neg hfull]
      have hih := ih post (n + 1) hroom0 hpre.2 hpost
      constructor
      · simp only [List.map_cons, List.mem_cons]
        push_neg
        exact ⟨hpre.1, hih.1⟩
      · exact hih.2

/-- Claim C5 counterexample: a backlog holding 128 fresh Computations
followed (in iteration order) by one expired Computation. The sweep's
first loop breaks as soon as the retry buffer holds 128 entries, so the
expired Computation is never visited: although its Timestamp plus
`ComputationBacklogExpiry` is before the sweep instant, it is still in the
backlog map after `syncOrderFragmentBacklog` returns (here every retry
succeeds, so nothing is reinserted). -/
theorem backlog_sweep_expired_can_survive :
    ome.expiredComC5 ∈ ome.entriesC5 ∧
    ome.expiredAt ome.nowC5 ome.expiredComC5 = true ∧
    ome.mapLookup (ome.syncOrderFragmentBacklog ome.entriesC5 ome.nowC5 (fun _ => false))
      ome.expiredComC5.ID = some ome.expiredComC5 := by
  refine ⟨by decide, by decide, by decide⟩

/-- Claim C5 as amended: an expired Computation is absent from the backlog
after the sweep provided the sweep actually visits it before the retry
buffer fills, i.e. provided fewer than 128 non-expired entries precede it
in iteration order (backlog keys are unique, as in any Go map). In
particular, whenever the backlog holds at most 128 entries, every expired
Computation is dropped. -/
theorem backlog_sweep_expired_visited_absent (entries : List ome.Computation)
    (now : Nat) (retryFails : ome.Computation → Bool) (com : ome.Computation)
    (pre post : List ome.Computation)
    (hsplit : entries = pre ++ com :: post)
    (hexp : ome.expiredAt now com = true)
    (hroom : (pre.filter (fun c => !ome.expiredAt now c)).length < 128)
    (hnodup : (entries.map ome.Computation.ID).Nodup) :
    ome.mapLookup (ome.syncOrderFragmentBacklog entries now retryFails) com.ID = none := by
  subst hsplit
  rw [List.map_append, List.map_cons] at hnodup
  have hpre : com.ID ∉ pre.map ome.Computation.ID := by
    intro hmem
    exact (List.disjoint_of_nodup_append hnodup) hmem (List.mem_cons_self _ _)
  have hpost : com.ID ∉ post.map ome.Computation.ID :=
    (List.nodup_cons.1 (List.nodup_append.1 hnodup).2.1).1
  have hnm := backlogBuffer_expired_not_mem now com hexp pre post 0
    (by simpa using hroom) hpre hpost
  unfold ome.syncOrderFragmentBacklog
  rw [sweepFold_lookup_of_not_mem retryFails _ _ _ hnm.1]
  apply mapLookup_eq_none
  rw [List.map_map]
  simpa using hnm.2

/-- Witness for the amended claim C5: a backlog holding a single expired
Computation; after the sweep it is gone. -/
theorem backlog_sweep_expired_visited_absent_witness :
    ome.mapLookup
      (ome.syncOrderFragmentBacklog [ome.expiredComC5] ome.nowC5 (fun _ => true))
      ome.expiredComC5.ID = none :=
  backlog_sweep_expired_visited_absent [ome.expiredComC5] ome.nowC5 (fun _ => true)
    ome.expiredComC5 [] [] rfl (by decide) (by decide) (by simp)

/-- Claim C8: every Computation that the sweep retries and that fails
again is reinserted into the backlog unchanged: the entry stored under its
ID after `syncOrderFragmentBacklog` returns is the identical Computation
value (same ID, State, Priority, Match, Timestamp, Buy and Sell) that was
removed from the backlog at the start of the sweep. -/
theorem backlog_sweep_failed_retry_reinserted_unchanged
    (entries : List ome.Computation) (now : Nat)
    (retryFails : ome.Computation → Bool) (com : ome.Computation)
    (hnodup : (entries.map ome.Computation.ID).Nodup)
    (hbuf : com ∈ (ome.backlogBuffer now entries 0).1)
    (hfail : retryFails com = true) :
    ome.mapLookup (ome.syncOrderFragmentBacklog entries now retryFails) com.ID = some com := by
  have hsub := (backlogBuffer_append_sublist now entries 0).map ome.Computation.ID
  rw [List.map_append] at hsub
  have hnodup2 := hnodup.sublist hsub
  unfold ome.syncOrderFragmentBacklog
  exact sweepFold_lookup_of_mem retryFails _ _ com hbuf hfail
    (List.Nodup.of_append_left hnodup2)

/-- Witness for claim C8: a backlog holding one fresh Computation whose
retry fails; after the sweep the identical value is back under its ID. -/
theorem backlog_sweep_failed_retry_reinserted_unchanged_witness :
    ome.mapLookup
      (ome.syncOrderFragmentBacklog [ome.freshComC5 0] ome.nowC5 (fun _ => true))
      (ome.freshComC5 0).ID = some (ome.freshComC5 0) :=
  backlog_sweep_failed_retry_reinserted_unchanged [ome.freshComC5 0] ome.nowC5
    (fun _ => true) (ome.freshComC5 0) (by simp) (by decide) rfl

theorem dispatch_foldl_spec (xi : ome.EpochHash) (f : ome.Computation → Bool) :
    ∀ (coms : List ome.Computation) (acc : ome.RankerPass),
    coms.foldl (ome.dispatchComputation xi f) acc =
      { matcherCalls := acc.matcherCalls ++
          coms.filter (fun c => decide (c.State = ome.ComputationStateNil))
        backlogInserts := acc.backlogInserts ++
          (coms.filter (fun c => decide (c.State = ome.ComputationStateNil) && f c)).map
            (fun c => (c.ID, c))
        matchesCh := acc.matchesCh ++
          coms.filter (fun c => decide (c.State = ome.ComputationStateMatched))
        settles := acc.settles ++
          (coms.filter (fun c => decide (c.State = ome.ComputationStateAccepted))).map
            (fun c => (xi, c))
        errorLogs := acc.errorLogs ++
          coms.filter (fun c => !decide (c.State = ome.ComputationStateNil) &&
            !decide (c.State = ome.ComputationStateMatched) &&
            !decide (c.State = ome.ComputationStateAccepted))
        wait := acc.wait } := by
  intro coms
  induction coms with
  | nil => intro acc; simp
  | cons c rest ih =>
    intro acc
    rw [List.foldl_cons, ih]
    by_cases h1 : c.State = ome.ComputationStateNil
    · by_cases h2 : f c
      · simp [ome.dispatchComputation, h1, h2, List.filter_cons,
          ome.ComputationStateNil, ome.ComputationStateMatched, ome.ComputationStateAccepted]
      · simp [ome.dispatchComputation, h1, h2, List.filter_cons,
          ome.ComputationStateNil, ome.ComputationStateMatched, ome.ComputationStateAccepted]
    · by_cases h3 : c.State = ome.ComputationStateMatched
      · simp [ome.dispatchComputation, h1, h3, List.filter_cons,
          ome.ComputationStateNil, ome.ComputationStateMatched, ome.ComputationStateAccepted]
      · by_cases h4 : c.State = ome.ComputationStateAccepted
        · simp [ome.dispatchComputation, h1, h3, h4, List.filter_cons,
            ome.ComputationStateNil, ome.ComputationStateMatched, ome.ComputationStateAccepted]
        · simp [ome.dispatchComputation, h1, h3, h4, List.filter_cons]

/-- Claim C6: a Ranker-drain pass requests at most 128 Computations (the
buffer bounds the batch) and dispatches each returned Computation by
state: Nil goes to the Matcher and, when the Matcher call errors, the
Computation is inserted into the backlog keyed by its ID; Matched is sent
on the matches channel; Accepted is sent to the Settler under the current
epoch hash; every other state is logged as an error and dropped. The pass
reports that the loop should sleep until the next 14-second tick exactly
when fewer than 128 Computations were returned. -/
theorem syncRanker_dispatches_by_state (xi : ome.EpochHash)
    (rankerComputations : Nat → List ome.Computation)
    (matcherErr : ome.Computation → Bool) :
    ((rankerComputations 128).take 128).length ≤ 128 ∧
    (ome.syncRanker xi rankerComputations matcherErr).matcherCalls =
      ((rankerComputations 128).take 128).filter
        (fun c => decide (c.State = ome.ComputationStateNil)) ∧
    (ome.syncRanker xi rankerComputations matcherErr).backlogInserts =
      (((rankerComputations 128).take 128).filter
        (fun c => decide (c.State = ome.ComputationStateNil) && matcherErr c)).map
        (fun c => (c.ID, c)) ∧
    (ome.syncRanker xi rankerComputations matcherErr).matchesCh =
      ((rankerComputations 128).take 128).filter
        (fun c => decide (c.State = ome.ComputationStateMatched)) ∧
    (ome.syncRanker xi rankerComputations matcherErr).settles =
      (((rankerComputations 128).take 128).filter
        (fun c => decide (c.State = ome.ComputationStateAccepted))).map
        (fun c => (xi, c)) ∧
    (ome.syncRanker xi rankerComputations matcherErr).errorLogs =
      ((rankerComputations 128).take 128).filter
        (fun c => !decide (c.State = ome.ComputationStateNil) &&
          !decide (c.State = ome.ComputationStateMatched) &&
          !decide (c.State = ome.ComputationStateAccepted)) ∧
    ((ome.syncRanker xi rankerComputations matcherErr).wait = true ↔
      ((rankerComputations 128).take 128).length < 128) := by
  have hlen : ((rankerComputations 128).take 128).length ≤ 128 :=
    List.length_take_le 128 _
  have hfold := dispatch_foldl_spec xi matcherErr ((rankerComputations 128).take 128)
    ome.emptyRankerPass
  simp only [ome.emptyRankerPass, List.nil_append] at hfold
  refine ⟨hlen, ?_, ?_, ?_, ?_, ?_, ?_⟩
  · simp [ome.syncRanker, ome.emptyRankerPass, hfold]
  · simp [ome.syncRanker, ome.emptyRankerPass, hfold]
  · simp [ome.syncRanker, ome.emptyRankerPass, hfold]
  · simp [ome.syncRanker, ome.emptyRankerPass, hfold]
  · simp [ome.syncRanker, ome.emptyRankerPass, hfold]
  · simp only [ome.syncRanker]
    constructor
    · intro hw
      have : ((rankerComputations 128).take 128).length ≠ 128 := by
        simpa using hw
      omega
    · intro hw
      simp only [decide_eq_true_eq]
      omega

theorem intMapGet_set_self (m : List (darknode.Address × Int)) (k : darknode.Address)
    (v : Int) : darknode.intMapGet (darknode.intMapSet m k v) k = v := by
  induction m with
  | nil => simp [darknode.intMapSet, darknode.intMapGet]
  | cons e rest ih =>
    by_cases h : e.1 = k
    · simp [darknode.intMapSet, darknode.intMapGet, h]
    · simp only [darknode.intMapSet]
      rw [if_neg h]
      simp only [darknode.intMapGet]
      rw [if_neg h]
      exact ih

theorem intMapGet_set_ne (m : List (darknode.Address × Int)) (k : darknode.Address)
    (v : Int) (k' : darknode.Address) (h : k ≠ k') :
    darknode.intMapGet (darknode.intMapSet m k v) k' = darknode.intMapGet m k' := by
  induction m with
  | nil => simp [darknode.intMapSet, darknode.intMapGet, h]
  | cons e rest ih =>
    by_cases he : e.1 = k
    · simp only [darknode.intMapSet]
      rw [if_pos he]
      simp only [darknode.intMapGet]
      rw [if_neg (he ▸ h), if_neg (he ▸ h)]
    · simp only [darknode.intMapSet]
      rw [if_neg he]
      simp only [darknode.intMapGet]
      by_cases he' : e.1 = k'
      · rw [if_pos he', if_pos he']
      · rw [if_neg he', if_neg he']
        exact ih

theorem acquireArc_inv (s : darknode.RouterState) (p : darknode.Address)
    (h : darknode.ArcInvariant s) : darknode.ArcInvariant (darknode.acquireArc s p) := by
  obtain ⟨hns, hnr, hne, hse, her, hcnt, hnn⟩ := h
  by_cases hp : p ∈ s.computeReceivers
  · simp only [darknode.acquireArc, if_pos hp]
    refine ⟨hns, hnr, hne, hse, her, ?_, ?_⟩
    · intro q
      by_cases hq : p = q
      · subst hq
        rw [intMapGet_set_self]
        have hpos := (hcnt p).2 hp
        constructor
        · intro _; exact hp
        · intro _; omega
      · rw [intMapGet_set_ne _ _ _ _ hq]
        exact hcnt q
    · intro q
      by_cases hq : p = q
      · subst hq
        rw [intMapGet_set_self]
        have := hnn p
        omega
      · rw [intMapGet_set_ne _ _ _ _ hq]
        exact hnn q
  · have hps : p ∉ s.computeSenders := fun hm => hp ((hse p).1 hm)
    have hpe : p ∉ s.computeErrs := fun hm => hp ((her p).1 hm)
    have hz : darknode.intMapGet s.computeArcs p = 0 := by
      have hnle : ¬ 0 < darknode.intMapGet s.computeArcs p := fun hl => hp ((hcnt p).1 hl)
      have := hnn p
      omega
    simp only [darknode.acquireArc, if_neg hp, darknode.setupComputeState]
    refine ⟨?_, ?_, ?_, ?_, ?_, ?_, ?_⟩
    · exact hns.append (List.nodup_singleton p) (by
        intro a ha hb
        simp only [List.mem_singleton] at hb
        exact hps (hb ▸ ha))
    · exact hnr.append (List.nodup_singleton p) (by
        intro a ha hb
        simp only [List.mem_singleton] at hb
        exact hp (hb ▸ ha))
    · exact hne.append (List.nodup_singleton p) (by
        intro a ha hb
        simp only [List.mem_singleton] at hb
        exact hpe (hb ▸ ha))
    · intro q
      simp only [List.mem_append, List.mem_singleton]
      exact or_congr_left (hse q)
    · intro q
      simp only [List.mem_append, List.mem_singleton]
      exact or_congr_left (her q)
    · intro q
      by_cases hq : p = q
      · subst hq
        rw [intMapGet_set_self, hz]
        simp
      · rw [intMapGet_set_ne _ _ _ _ hq]
        simp only [List.mem_append, List.mem_singleton]
        constructor
        · intro hl; exact Or.inl ((hcnt q).1 hl)
        · intro hor
          rcases hor with hmr | heq
          · exact (hcnt q).2 hmr
          · exact absurd heq.symm hq
    · intro q
      by_cases hq : p = q
      · subst hq
        rw [intMapGet_set_self, hz]
        omega
      · rw [intMapGet_set_ne _ _ _ _ hq]
        exact hnn q

theorem releaseArc_inv (s : darknode.RouterState) (p : darknode.Address)
    (h : darknode.ArcInvariant s)
    (hpos : 0 < darknode.intMapGet s.computeArcs p) :
    darknode.ArcInvariant (darknode.releaseArc s p) := by
  obtain ⟨hns, hnr, hne, hse, her, hcnt, hnn⟩ := h
  have hp : p ∈ s.computeReceivers := (hcnt p).1 hpos
  simp only [darknode.releaseArc, intMapGet_set_self]
  by_cases hone : darknode.intMapGet s.computeArcs p = 1
  · rw [if_pos (by omega)]
    simp only [darknode.teardownComputeState]
    refine ⟨hns.filter _, hnr.filter _, hne.filter _, ?_, ?_, ?_, ?_⟩
    · intro q
      simp only [List.mem_filter, decide_eq_true_eq]
      exact and_congr_left (fun _ => hse q)
    · intro q
      simp only [List.mem_filter, decide_eq_true_eq]
      exact and_congr_left (fun _ => her q)
    · intro q
      by_cases hq : p = q
      · subst hq
        rw [intMapGet_set_self, hone]
        simp
      · rw [intMapGet_set_ne _ _ _ _ hq]
        simp only [List.mem_filter, decide_eq_true_eq]
        constructor
        · intro hl; exact ⟨(hcnt q).1 hl, fun he => hq he.symm⟩
        · intro hand; exact (hcnt q).2 hand.1
    · intro q
      by_cases hq : p = q
      · subst hq; rw [intMapGet_set_self]; omega
      · rw [intMapGet_set_ne _ _ _ _ hq]; exact hnn q
  · rw [if_neg (by omega)]
    refine ⟨hns, hnr, hne, hse, her, ?_, ?_⟩
    · intro q
      by_cases hq : p = q
      · subst hq
        rw [intMapGet_set_self]
        constructor
        · intro _; exact hp
        · intro _; omega
      · rw [intMapGet_set_ne _ _ _ _ hq]
        exact hcnt q
    · intro q
      by_cases hq : p = q
      · subst hq; rw [intMapGet_set_self]; omega
      · rw [intMapGet_set_ne _ _ _ _ hq]; exact hnn q

theorem initRouterState_inv : darknode.ArcInvariant darknode.initRouterState := by
  refine ⟨List.nodup_nil, List.nodup_nil, List.nodup_nil, ?_, ?_, ?_, ?_⟩ <;>
    intro p <;> simp [darknode.initRouterState, darknode.intMapGet]

theorem validSteps_inv : ∀ (s : darknode.RouterState) (t : List darknode.RouterEvent),
    darknode.ValidSteps s t → darknode.ArcInvariant s →
    darknode.ArcInvariant (darknode.applyTrace s t) := by
  intro s t hv
  induction hv with
  | nil s => intro h; exact h
  | acquire s p t _ ih => intro h; exact ih (acquireArc_inv s p h)
  | release s p t hpos _ ih => intro h; exact ih (releaseArc_inv s p h hpos)

theorem releaseTearsDownArc_iff (s : darknode.RouterState) (p : darknode.Address) :
    darknode.releaseTearsDownArc s p ↔ darknode.intMapGet s.computeArcs p = 1 := by
  unfold darknode.releaseTearsDownArc
  simp only [darknode.releaseArc, intMapGet_set_self]
  by_cases hone : darknode.intMapGet s.computeArcs p = 1
  · rw [if_pos (by omega)]
    simp [darknode.teardownComputeState, hone]
  · rw [if_neg (by omega)]
    simp [hone]

/-- Claim C3: for every peer address `p`, in every state the Router can
reach through its mutex-serialized acquire/release critical sections, the
Router holds at most one arc to `p` (each arc map holds at most one entry
per key and the three maps share one key set), and the arc entries
(sender, receivers, errs) for `p` are present if and only if the
reference count `computeArcs[p]` is greater than zero. The acquire step
increments the count in its critical section (before the caller
subscribes), the release step decrements it in the same critical section,
and teardown (closing the outbound sender channel and removing the arc
maps) happens in a release step exactly when the decremented count
reaches zero. -/
theorem router_arc_refcount_invariant :
    (∀ t, darknode.ValidSteps darknode.initRouterState t →
      darknode.ArcInvariant (darknode.applyTrace darknode.initRouterState t)) ∧
    (∀ s p, darknode.intMapGet (darknode.acquireArc s p).computeArcs p =
      darknode.intMapGet s.computeArcs p + 1) ∧
    (∀ s p, darknode.intMapGet (darknode.releaseArc s p).computeArcs p =
      darknode.intMapGet s.computeArcs p - 1) ∧
    (∀ s p, darknode.releaseTearsDownArc s p ↔
      darknode.intMapGet s.computeArcs p = 1) ∧
    (∀ s p, ¬ darknode.releaseTearsDownArc s p →
      (darknode.releaseArc s p).computeSenders = s.computeSenders ∧
      (darknode.releaseArc s p).computeReceivers = s.computeReceivers ∧
      (darknode.releaseArc s p).computeErrs = s.computeErrs) := by
  refine ⟨?_, ?_, ?_, ?_, ?_⟩
  · intro t hv
    exact validSteps_inv _ t hv initRouterState_inv
  · intro s p
    by_cases hp : p ∈ s.computeReceivers
    · simp [darknode.acquireArc, hp, intMapGet_set_self]
    · simp [darknode.acquireArc, hp, darknode.setupComputeState, intMapGet_set_self]
  · intro s p
    simp only [darknode.releaseArc, intMapGet_set_self]
    by_cases hz : darknode.intMapGet s.computeArcs p - 1 = 0
    · rw [if_pos hz]
      simp [darknode.teardownComputeState, intMapGet_set_self]
    · rw [if_neg hz]
      simp [intMapGet_set_self]
  · intro s p
    exact releaseTearsDownArc_iff s p
  · intro s p h
    have hone : darknode.intMapGet s.computeArcs p ≠ 1 :=
      fun h1 => h ((releaseTearsDownArc_iff s p).2 h1)
    simp only [darknode.releaseArc, intMapGet_set_self]
    rw [if_neg (by omega)]
    exact ⟨rfl, rfl, rfl⟩

/-- Witness for claim C3: the trace acquire-then-release on peer `[7]`
from the initial Router state is a valid history, the invariant holds
after it, and the single release (count 1 → 0) tears the arc down,
closing the sender channel. -/
theorem router_arc_refcount_invariant_witness :
    darknode.ArcInvariant (darknode.applyTrace darknode.initRouterState
      [darknode.RouterEvent.acquire [7], darknode.RouterEvent.release [7]]) ∧
    darknode.releaseTearsDownArc (darknode.acquireArc darknode.initRouterState [7]) [7] := by
  constructor
  · exact router_arc_refcount_invariant.1 _
      (darknode.ValidSteps.acquire _ _ _
        (darknode.ValidSteps.release _ _ _ (by decide)
          (darknode.ValidSteps.nil _)))
  · exact (router_arc_refcount_invariant.2.2.2.1 _ _).2 (by decide)
